import Mathlib

/-
Verification of the LiteFS mount command (cmd/litefs/mount_linux.go).

The Go file orchestrates the leadership-coordination subsystem: it validates
the configuration, instantiates a lease backend (consul or static), opens the
store, mounts the FUSE file system, serves HTTP, waits on the readiness
barrier, optionally auto-promotes, then serves the proxy and executes the
configured subcommands.

The shallow embedding below translates the functions of that file into pure
Lean functions.  External effects (listening sockets, the consul session, the
store's readiness channel, subprocess execution, shellwords parsing) are
modelled as oracle inputs carried by an environment record, and the
observable actions of `Run` are recorded as an event trace.
-/

namespace LiteFS

/-- Consul-specific lease configuration (Config.Lease.Consul).
TTL and LockDelay are Go `time.Duration` values (int64 nanoseconds),
modelled as `Int`. -/
structure ConsulConfig where
  url : String
  key : String
  ttl : Int
  lockDelay : Int
deriving DecidableEq, Repr

/-- Lease configuration (Config.Lease). -/
structure LeaseConfig where
  type : String
  hostname : String
  advertiseURL : String
  candidate : Bool
  promote : Bool
  consul : ConsulConfig
deriving DecidableEq, Repr

/-- One entry of the "exec" config list. -/
structure ExecConfig where
  cmd : String
  ifCandidate : Bool
deriving DecidableEq, Repr

/-- FUSE configuration (Config.FUSE); only the directory matters here. -/
structure FUSEConfig where
  dir : String
deriving DecidableEq, Repr

/-- Data configuration (Config.Data); only the directory matters here. -/
structure DataConfig where
  dir : String
deriving DecidableEq, Repr

/-- Proxy configuration (Config.Proxy); only the target matters here. -/
structure ProxyConfig where
  target : String
deriving DecidableEq, Repr

/-- The parts of the mount command's Config used by mount_linux.go. -/
structure Config where
  fuse : FUSEConfig
  data : DataConfig
  lease : LeaseConfig
  proxy : ProxyConfig
  exec : List ExecConfig
  skipSync : Bool
deriving DecidableEq, Repr

def LeaseTypeConsul : String := "consul"

def LeaseTypeStatic : String := "static"

/-- IsValidLeaseType returns true if s is a valid lease type
(mount_linux.go lines 154-161). -/
def IsValidLeaseType (s : String) : Bool :=
  if s = LeaseTypeConsul then true
  else if s = LeaseTypeStatic then true
  else false

/-- Validate validates the application's configuration
(mount_linux.go lines 131-146).  `some msg` models a returned error,
`none` models a nil error. -/
def Validate (c : Config) : Option String :=
  if c.fuse.dir = "" then some "fuse directory required"
  else if c.data.dir = "" then some "data directory required"
  else if c.fuse.dir = c.data.dir then
    some "fuse directory and data directory cannot be the same path"
  else if ¬ IsValidLeaseType c.lease.type then
    some "invalid lease type, must be either consul or static"
  else none

/-- Modelled from the spec: the consul package (not under src/) gives its
leaser a default TTL; the exact value is external to this file and no theorem
depends on it ("configurable TTL (default value, overridable)"). -/
def consulDefaultTTL : Int := 10000000000

/-- Modelled from the spec: the consul package (not under src/) gives its
leaser a default LockDelay; the exact value is external to this file and no
theorem depends on it ("LockDelay (default value, overridable)"). -/
def consulDefaultLockDelay : Int := 1000000000

/-- The consul leaser as configured by initConsul: constructor arguments of
consul.NewLeaser plus its TTL and LockDelay fields. -/
structure ConsulLeaser where
  url : String
  key : String
  hostname : String
  advertiseURL : String
  ttl : Int
  lockDelay : Int
deriving DecidableEq, Repr

/-- Modelled from the spec: consul.NewLeaser (not under src/) constructs a
leaser from the service URL, lock key, hostname and advertise URL, with TTL
and LockDelay initialized to the backend's defaults. -/
def NewLeaser (url key hostname advertiseURL : String) : ConsulLeaser :=
  { url, key, hostname, advertiseURL,
    ttl := consulDefaultTTL, lockDelay := consulDefaultLockDelay }

/-- initConsul (mount_linux.go lines 273-309).  `osHostname` is the result of
os.Hostname(), `advertiseURLFn` models the test-injection hook
AdvertiseURLFn (`none` when the hook is unset), `httpPort` is
HTTPServer.Port(), and `openOk` is whether leaser.Open() succeeds. -/
def initConsul (cfg : Config) (osHostname : Except String String)
    (advertiseURLFn : Option String) (httpPort : Nat) (openOk : Bool) :
    Except String ConsulLeaser :=
  -- Use hostname from OS, if not specified.
  let hostnameE : Except String String :=
    if cfg.lease.hostname = "" then osHostname else .ok cfg.lease.hostname
  match hostnameE with
  | .error e => .error e
  | .ok hostname =>
    -- Determine the advertise URL for the LiteFS API.
    -- Default to use the hostname and HTTP port. Also allow injection for tests.
    let advertiseURL := cfg.lease.advertiseURL
    let advertiseURL :=
      match advertiseURLFn with
      | some f => f
      | none => advertiseURL
    let advertiseURL :=
      if advertiseURL = "" ∧ hostname ≠ "" then
        "http://" ++ hostname ++ ":" ++ toString httpPort
      else advertiseURL
    let leaser := NewLeaser cfg.lease.consul.url cfg.lease.consul.key hostname advertiseURL
    let leaser :=
      if cfg.lease.consul.ttl > 0 then { leaser with ttl := cfg.lease.consul.ttl } else leaser
    let leaser :=
      if cfg.lease.consul.lockDelay > 0 then
        { leaser with lockDelay := cfg.lease.consul.lockDelay }
      else leaser
    if openOk then .ok leaser else .error "cannot connect to consul"

/-- The poll interval of the promotion wait loop, in milliseconds
(mount_linux.go line 465: time.NewTicker(1 * time.Millisecond)). -/
def promoteTickerMs : Nat := 1

/-- The overall timeout of the promotion wait loop, in milliseconds
(mount_linux.go line 467: time.NewTicker(10 * time.Second)). -/
def promoteTimeoutMs : Nat := 10000

/-- The wait loop of promote (mount_linux.go lines 470-479): the ticker polls
Store.IsPrimary() once per tick until it reads true (result `true`) or the
timeout ticker fires (result `false`).  `fuel` is the number of ticker polls
that happen before the timeout fires; `t` is the index of the last poll done
so far.  The select of the loop has exactly the two cases timeout.C and
ticker.C; the surrounding context is not consulted. -/
def promotePoll (isPrimaryAt : Nat → Bool) : Nat → Nat → Bool
  | 0, _ => false
  | fuel + 1, t => if isPrimaryAt (t + 1) then true else promotePoll isPrimaryAt fuel (t + 1)

/-- Oracle inputs of one call to promote: the PrimaryInfo snapshot, the
result of client.Handoff, the value Store.IsPrimary() would return at each
poll tick, and the tick at which the caller's context is canceled (`none` if
never).  The Go loop never selects on ctx.Done(), so `cancelAt` is carried
only so that claims about cancellation can be stated. -/
structure PromoteEnv where
  isPrimary0 : Bool
  advertiseURL : String
  storeID : String
  handoffResult : Except String Unit
  isPrimaryAt : Nat → Bool
  cancelAt : Option Nat

/-- Result of promote.  `canceledCause` is the value the spec says a canceled
promote should return; the function below never produces it. -/
inductive PromoteResult where
  | ok
  | handoffFailed (msg : String)
  | promotionTimeout
  | canceledCause
deriving DecidableEq, Repr

/-- promote (mount_linux.go lines 452-480).  The second component records
whether a handoff request was sent to a peer. -/
def promote (env : PromoteEnv) : PromoteResult × Bool :=
  if env.isPrimary0 then (.ok, false)
  else
    match env.handoffResult with
    | .error e => (.handoffFailed e, true)
    | .ok _ =>
      if promotePoll env.isPrimaryAt (promoteTimeoutMs / promoteTickerMs) 0 then (.ok, true)
      else (.promotionTimeout, true)

/-- Observable actions of Run, in program order:
`httpServe` is HTTPServer.Serve() (line 227), `readyWait` is entering the
select on Store.ReadyCh() (line 235), `readyFired` is the ReadyCh branch
being taken (line 238), `promoteCall` is the call to promote (line 246),
`proxyServe` is ProxyServer.Serve() (line 258), and `execCmd i` is the start
of the i-th configured exec command (lines 409/413). -/
inductive Ev where
  | httpServe
  | readyWait
  | readyFired
  | promoteCall
  | proxyServe
  | execCmd (i : Nat)
deriving DecidableEq, Repr

/-- An event that serves external traffic or starts a subprocess. -/
def servingEv : Ev → Bool
  | .proxyServe => true
  | .execCmd _ => true
  | _ => false

/-- Scans a trace left to right and checks that no serving event occurs
before a `readyFired` event has been seen; `seen` says whether `readyFired`
has already occurred. -/
def serveAfterReadyB : Bool → List Ev → Bool
  | _, [] => true
  | seen, e :: rest =>
    (!servingEv e || seen) && serveAfterReadyB (seen || (e == Ev.readyFired)) rest

/-- Oracle inputs of one call to Run: success of each fallible external step,
the os.Hostname() result and test hooks consumed by initConsul, which branch
the readiness select takes, the oracle for the promote subcall, and the
shellwords.Parse result (already split into argv head and tail) and spawn
success for each exec command. -/
structure RunEnv where
  httpListenOk : Bool
  proxyPassthroughOk : Bool
  proxyListenOk : Bool
  osHostname : Except String String
  advertiseURLFn : Option String
  httpPort : Nat
  consulOpenOk : Bool
  openStoreOk : Bool
  fsMountOk : Bool
  readyCtxCanceled : Bool
  promoteEnv : PromoteEnv
  execParse : Nat → Except String (String × List String)
  execRunOk : Nat → Bool

/-- Errors Run can return, one constructor per return site of Run
(mount_linux.go lines 191-271).  `canceledCause` is context.Cause(ctx)
returned at line 237. -/
inductive RunError where
  | initHTTPServer
  | initProxyServer (msg : String)
  | initConsul (msg : String)
  | invalidLeaseType (t : String)
  | openStore
  | initFileSystem
  | canceledCause
  | promoteFailed (r : PromoteResult)
  | execFailed (msg : String)
deriving DecidableEq, Repr

/-- The loop body of execCmds (mount_linux.go lines 392-419) from command
index `i` on.  Each command's string is parsed first; a candidate-only
command on a non-candidate node is then skipped; otherwise the command is
started (execSyncCmd for all but the last entry, execBackgroundCmd for the
last; both are modelled as an `execCmd` event plus a success flag, since the
sync/async distinction is not observable in the recorded events). -/
def execCmdsFrom (candidate : Bool) (env : RunEnv) : Nat → List ExecConfig →
    Except String Unit × List Ev
  | _, [] => (.ok (), [])
  | i, c :: rest =>
    match env.execParse i with
    | .error _ => (.error "cannot parse exec command", [])
    | .ok _ =>
      -- Skip if command should only run on candidate nodes and this is a non-candidate.
      if c.ifCandidate ∧ candidate = false then execCmdsFrom candidate env (i + 1) rest
      else if env.execRunOk i then
        let r := execCmdsFrom candidate env (i + 1) rest
        (r.1, Ev.execCmd i :: r.2)
      else (.error "cannot run command", [Ev.execCmd i])

/-- execCmds sequentially executes the commands in the "exec" config
(mount_linux.go lines 392-420).  `candidate` is Store.Candidate(), which is
the Config.Lease.Candidate flag the store was built with (line 312). -/
def execCmds (candidate : Bool) (cmds : List ExecConfig) (env : RunEnv) :
    Except String Unit × List Ev :=
  execCmdsFrom candidate env 0 cmds

/-- initProxyServer (mount_linux.go lines 360-388): skipped when no proxy
target is set; otherwise the passthrough expressions must compile and the
listener must open.  Returns whether a proxy server was created. -/
def initProxyServerM (cfg : Config) (env : RunEnv) : Except RunError Bool :=
  if cfg.proxy.target = "" then .ok false
  else if env.proxyPassthroughOk = false then
    .error (.initProxyServer "cannot parse proxy passthrough expression")
  else if env.proxyListenOk = false then .error (.initProxyServer "listen")
  else .ok true

/-- The initialization prefix of Run (mount_linux.go lines 195-225):
initStore (never fails, line 311-321), initHTTPServer, initProxyServer, the
lease-type switch instantiating the leaser, openStore and initFileSystem.
None of these steps emits a traffic-serving event.  Returns whether a proxy
server was created. -/
def runInit (cfg : Config) (env : RunEnv) : Except RunError Bool :=
  if env.httpListenOk = false then .error .initHTTPServer
  else
    match initProxyServerM cfg env with
    | .error e => .error e
    | .ok proxyCreated =>
      let leaserR : Except RunError Unit :=
        if cfg.lease.type = LeaseTypeConsul then
          match initConsul cfg env.osHostname env.advertiseURLFn env.httpPort env.consulOpenOk with
          | .error e => .error (.initConsul e)
          | .ok _ => .ok ()
        else if cfg.lease.type = LeaseTypeStatic then .ok ()
        else .error (.invalidLeaseType cfg.lease.type)
      match leaserR with
      | .error e => .error e
      | .ok _ =>
        if env.openStoreOk = false then .error .openStore
        else if env.fsMountOk = false then .error .initFileSystem
        else .ok proxyCreated

/-- The tail of Run after the readiness block (mount_linux.go lines 255-270):
serve the proxy if one was created, then execute the configured subcommands
if any. -/
def runAfterReady (cfg : Config) (env : RunEnv) (proxyCreated : Bool) (tr : List Ev) :
    Except RunError Unit × List Ev :=
  let tr2 := if proxyCreated then tr ++ [Ev.proxyServe] else tr
  if 0 < cfg.exec.length then
    match execCmds cfg.lease.candidate cfg.exec env with
    | (.ok _, etr) => (.ok (), tr2 ++ etr)
    | (.error e, etr) => (.error (.execFailed e), tr2 ++ etr)
  else (.ok (), tr2)

/-- The part of Run after initialization (mount_linux.go lines 227-270):
HTTP serve, then — unless SkipSync — the select on ctx.Done/ReadyCh and the
optional auto-promotion, then the proxy/exec tail.  Store.Candidate() is the
Config.Lease.Candidate flag the store was built with (line 312). -/
def runServe (cfg : Config) (env : RunEnv) (proxyCreated : Bool) :
    Except RunError Unit × List Ev :=
  let tr := [Ev.httpServe]
  if cfg.skipSync then runAfterReady cfg env proxyCreated tr
  else
    let tr := tr ++ [Ev.readyWait]
    if env.readyCtxCanceled then (.error .canceledCause, tr)
    else
      let tr := tr ++ [Ev.readyFired]
      if cfg.lease.promote then
        if cfg.lease.candidate then
          let tr := tr ++ [Ev.promoteCall]
          match (promote env.promoteEnv).1 with
          | .ok => runAfterReady cfg env proxyCreated tr
          | r => (.error (.promoteFailed r), tr)
        else runAfterReady cfg env proxyCreated tr
      else runAfterReady cfg env proxyCreated tr

/-- Run (mount_linux.go lines 191-271), returning its result and the trace
of observable events. -/
def Run (cfg : Config) (env : RunEnv) : Except RunError Unit × List Ev :=
  match runInit cfg env with
  | .error e => (.error e, [])
  | .ok proxyCreated => runServe cfg env proxyCreated

/-- One call to openStore (mount_linux.go lines 323-333) against the state of
the process-wide `expvarOnce` guard (line 482).  Input: whether the guard has
already run, and whether Store.Open() succeeds.  Output: the new guard state,
whether expvar.Publish executed during this call, and whether the call
returned nil. -/
def openStoreOnce (once : Bool) (openOk : Bool) : Bool × Bool × Bool :=
  if openOk = false then (once, false, false)
  else if once then (true, false, true)
  else (true, true, true)

/-- A sequence of openStore calls (e.g. repeated runs in tests) threading the
`expvarOnce` state; returns, per call, whether expvar.Publish executed. -/
def openStoreRuns : Bool → List Bool → List Bool
  | _, [] => []
  | once, ok :: rest =>
    let r := openStoreOnce once ok
    r.2.1 :: openStoreRuns r.1 rest

/-- Written from the spec's words, for comparison with `openStoreRuns`: the
publish action executes exactly on the first call whose store open succeeds,
and on no other call. -/
def publishMarks : List Bool → List Bool
  | [] => []
  | ok :: rest => if ok then true :: rest.map (fun _ => false) else false :: publishMarks rest

/-- Modelled from the spec: the startup path (the main entry point is not
under src/) validates the configuration and proceeds to Run only when
Validate returns nil; on a validation error startup fails without running
("fatal at startup, process must not proceed"). -/
def startup (cfg : Config) (env : RunEnv) : Except String (Except RunError Unit × List Ev) :=
  match Validate cfg with
  | some e => .error e
  | none => .ok (Run cfg env)

/-- A promote call on a node whose store already reports itself primary. -/
def promoteEnvPrimary : PromoteEnv :=
  { isPrimary0 := true, advertiseURL := "", storeID := "node-a",
    handoffResult := .ok (), isPrimaryAt := fun _ => false, cancelAt := none }

/-- A promote call whose handoff succeeds and whose store reports primary at
the first poll tick. -/
def promoteEnvQuick : PromoteEnv :=
  { isPrimary0 := false, advertiseURL := "http://node-a:20202", storeID := "node-b",
    handoffResult := .ok (), isPrimaryAt := fun k => k == 1, cancelAt := none }

/-- A promote call whose handoff succeeds, whose store never reports primary,
and whose context is canceled at tick 5, well before the 10 s timeout. -/
def promoteEnvStalled : PromoteEnv :=
  { isPrimary0 := false, advertiseURL := "http://node-a:20202", storeID := "node-b",
    handoffResult := .ok (), isPrimaryAt := fun _ => false, cancelAt := some 5 }

/-- A representative mount configuration: static lease, candidate node, a
proxy target and one exec command. -/
def runCfgBase : Config :=
  { fuse := { dir := "/litefs" }, data := { dir := "/var/lib/litefs" },
    lease := { type := "static", hostname := "node-a", advertiseURL := "http://node-a:20202",
               candidate := true, promote := false,
               consul := { url := "", key := "", ttl := 0, lockDelay := 0 } },
    proxy := { target := "localhost:8080" },
    exec := [{ cmd := "app", ifCandidate := false }],
    skipSync := false }

/-- An all-successful run environment. -/
def runEnvBase : RunEnv :=
  { httpListenOk := true, proxyPassthroughOk := true, proxyListenOk := true,
    osHostname := .ok "node-a", advertiseURLFn := none, httpPort := 20202,
    consulOpenOk := true, openStoreOk := true, fsMountOk := true,
    readyCtxCanceled := false, promoteEnv := promoteEnvQuick,
    execParse := fun _ => .ok ("app", []), execRunOk := fun _ => true }

/-- `runCfgBase` with cluster sync skipped, auto-promote requested. -/
def runCfgSkip : Config :=
  { runCfgBase with
    skipSync := true,
    lease := { runCfgBase.lease with promote := true } }

/-- `runCfgBase` as a non-candidate with auto-promote requested and a
candidate-only migration command before the main command. -/
def runCfgNonCandidate : Config :=
  { runCfgBase with
    lease := { runCfgBase.lease with candidate := false, promote := true },
    exec := [{ cmd := "migrate", ifCandidate := true }, { cmd := "app", ifCandidate := false }] }

/-- The exec list of the candidate-skip counterexample: a candidate-only
command followed by an ordinary one. -/
def execCfgsParseFail : List ExecConfig :=
  [{ cmd := "migrate", ifCandidate := true }, { cmd := "app", ifCandidate := false }]

/-- `runEnvBase` where shellwords parsing of exec command 0 fails (e.g. an
unbalanced quote in its command string). -/
def runEnvParseFail : RunEnv :=
  { runEnvBase with
    execParse := fun i => if i == 0 then .error "invalid command line string" else .ok ("app", []) }

/-- A consul-backed configuration with no configured hostname, no configured
advertise URL, a zero TTL and a positive LockDelay. -/
def runCfgConsul : Config :=
  { runCfgBase with
    lease := { type := "consul", hostname := "", advertiseURL := "",
               candidate := true, promote := false,
               consul := { url := "http://localhost:8500", key := "litefs/primary",
                           ttl := 0, lockDelay := 25000000000 } } }

/-- The leaser initConsul builds from `runCfgConsul` with OS hostname
"node-a" and HTTP port 20202. -/
def leaserW : ConsulLeaser :=
  { url := "http://localhost:8500", key := "litefs/primary", hostname := "node-a",
    advertiseURL := "http://node-a:20202", ttl := consulDefaultTTL,
    lockDelay := 25000000000 }

/-- A string with a non-empty left part stays non-empty under append. -/
theorem string_append_ne_empty (s t : String) (hs : s ≠ "") : s ++ t ≠ "" := by
  intro h
  apply hs
  have hd := congrArg String.data h
  rw [String.data_append] at hd
  have hempty : ("" : String).data = [] := rfl
  rw [hempty] at hd
  have hnil : s.data = [] := (List.append_eq_nil.mp hd).1
  exact String.ext (by rw [hnil])

/-- The wait loop reads true exactly when some poll tick within its fuel
observes IsPrimary. -/
theorem promotePoll_iff (f : Nat → Bool) (fuel t : Nat) :
    promotePoll f fuel t = true ↔ ∃ k, t < k ∧ k ≤ t + fuel ∧ f k = true := by
  induction fuel generalizing t with
  | zero =>
    simp only [promotePoll]
    constructor
    · intro h; cases h
    · rintro ⟨k, h1, h2, _⟩; omega
  | succ n ih =>
    simp only [promotePoll]
    by_cases hf : f (t + 1) = true
    · simp only [hf, if_true]
      constructor
      · intro _; exact ⟨t + 1, by omega, by omega, hf⟩
      · intro _; trivial
    · have hf' : f (t + 1) = false := by
        revert hf; cases f (t + 1) <;> simp
      rw [hf', if_neg (by simp), ih]
      constructor
      · rintro ⟨k, h1, h2, h3⟩
        exact ⟨k, by omega, by omega, h3⟩
      · rintro ⟨k, h1, h2, h3⟩
        have hk : k ≠ t + 1 := by
          intro he; rw [he] at h3; rw [h3] at hf'; cases hf'
        exact ⟨k, by omega, by omega, h3⟩

/-- A loop that never observes IsPrimary times out. -/
theorem promotePoll_const_false (fuel t : Nat) :
    promotePoll (fun _ => false) fuel t = false := by
  induction fuel generalizing t with
  | zero => rfl
  | succ n ih => simp only [promotePoll, if_neg]; exact ih (t + 1)

/-- Once readyFired has been seen, the scan accepts any tail. -/
theorem serveAfterReadyB_of_seen (l : List Ev) : serveAfterReadyB true l = true := by
  induction l with
  | nil => rfl
  | cons e rest ih => simp [serveAfterReadyB, ih]

/-- The scan splits over an append: the right part starts with the seen flag
the left part ends with. -/
theorem serveAfterReadyB_append (l1 l2 : List Ev) (s : Bool) :
    serveAfterReadyB s (l1 ++ l2) =
      (serveAfterReadyB s l1 &&
        serveAfterReadyB (s || l1.any fun e => e == Ev.readyFired) l2) := by
  induction l1 generalizing s with
  | nil => simp [serveAfterReadyB]
  | cons e rest ih =>
    simp only [List.cons_append, serveAfterReadyB, List.any_cons, List.append_eq]
    rw [ih, Bool.or_assoc, Bool.and_assoc]

/-- Appending anything after a prefix that saw readyFired cleanly keeps the
scan true. -/
theorem serveAfterReadyB_of_pre (pre suf : List Ev)
    (h1 : serveAfterReadyB false pre = true)
    (h2 : (pre.any fun e => e == Ev.readyFired) = true) :
    serveAfterReadyB false (pre ++ suf) = true := by
  rw [serveAfterReadyB_append, h1, h2]
  simp [serveAfterReadyB_of_seen]

/-- Every event emitted by the exec loop from index i on is the start of a
listed command at or after i, and a candidate-only command is started only on
a candidate node. -/
theorem execCmdsFrom_mem (cand : Bool) (env : RunEnv) :
    ∀ (cmds : List ExecConfig) (i : Nat) (e : Ev),
      e ∈ (execCmdsFrom cand env i cmds).2 →
      ∃ j c, e = Ev.execCmd (i + j) ∧ cmds[j]? = some c ∧
        (c.ifCandidate = true → cand = true) := by
  intro cmds
  induction cmds with
  | nil => intro i e h; simp [execCmdsFrom] at h
  | cons c rest ih =>
    intro i e h
    rw [execCmdsFrom] at h
    cases hp : env.execParse i with
    | error msg => rw [hp] at h; simp at h
    | ok v =>
      rw [hp] at h
      by_cases hskip : (c.ifCandidate = true ∧ cand = false)
      · rw [if_pos hskip] at h
        obtain ⟨j, c', he, hj, himp⟩ := ih (i + 1) e h
        exact ⟨j + 1, c', by rw [he]; congr 1; omega, by simpa using hj, himp⟩
      · rw [if_neg hskip] at h
        have hcand : c.ifCandidate = true → cand = true := by
          intro hic
          cases hcv : cand
          · exact absurd ⟨hic, hcv⟩ hskip
          · rfl
        by_cases hrun : env.execRunOk i = true
        · rw [if_pos hrun] at h
          rcases List.mem_cons.mp h with he | he
          · exact ⟨0, c, by rw [he]; congr 1, by simp, hcand⟩
          · obtain ⟨j, c', he', hj, himp⟩ := ih (i + 1) e he
            exact ⟨j + 1, c', by rw [he']; congr 1; omega, by simpa using hj, himp⟩
        · rw [if_neg hrun] at h
          rcases List.mem_singleton.mp h with he
          exact ⟨0, c, by rw [he]; congr 1, by simp, hcand⟩

/-- Every event of the exec trace is a serving event. -/
theorem execCmds_serving (cand : Bool) (cmds : List ExecConfig) (env : RunEnv) :
    ∀ e ∈ (execCmds cand cmds env).2, servingEv e = true := by
  intro e he
  obtain ⟨j, c, he', _, _⟩ := execCmdsFrom_mem cand env cmds 0 e he
  rw [he']; rfl

/-- The proxy/exec tail of Run only appends serving events to the trace it is
given. -/
theorem runAfterReady_trace (cfg : Config) (env : RunEnv) (pc : Bool) (tr : List Ev) :
    ∃ suf, (runAfterReady cfg env pc tr).2 = tr ++ suf ∧ ∀ e ∈ suf, servingEv e = true := by
  have hserve := execCmds_serving cfg.lease.candidate cfg.exec env
  simp only [runAfterReady]
  rcases hx : execCmds cfg.lease.candidate cfg.exec env with ⟨res, etr⟩
  rw [hx] at hserve
  by_cases hlen : 0 < cfg.exec.length
  · rw [if_pos hlen]
    cases res with
    | ok u =>
      cases pc
      · exact ⟨etr, by simp, fun e he => hserve e he⟩
      · refine ⟨Ev.proxyServe :: etr, by simp, fun e he => ?_⟩
        rcases List.mem_cons.mp he with he' | he'
        · rw [he']; rfl
        · exact hserve e he'
    | error msg =>
      cases pc
      · exact ⟨etr, by simp, fun e he => hserve e he⟩
      · refine ⟨Ev.proxyServe :: etr, by simp, fun e he => ?_⟩
        rcases List.mem_cons.mp he with he' | he'
        · rw [he']; rfl
        · exact hserve e he'
  · rw [if_neg hlen]
    cases pc
    · exact ⟨[], by simp, by simp⟩
    · exact ⟨[Ev.proxyServe], by simp, by simp [servingEv]⟩

/-- A non-serving event absent from the given trace stays absent through the
proxy/exec tail. -/
theorem runAfterReady_not_mem (cfg : Config) (env : RunEnv) (pc : Bool) (tr : List Ev)
    (x : Ev) (hx : servingEv x = false) (hnt : x ∉ tr) :
    x ∉ (runAfterReady cfg env pc tr).2 := by
  obtain ⟨suf, heq, hall⟩ := runAfterReady_trace cfg env pc tr
  rw [heq]
  intro hmem
  rcases List.mem_append.mp hmem with hm | hm
  · exact hnt hm
  · rw [hall x hm] at hx; cases hx

/-- The scan stays true through the proxy/exec tail when the given prefix is
clean and contains readyFired. -/
theorem serveAfterReadyB_runAfterReady (cfg : Config) (env : RunEnv) (pc : Bool)
    (pre : List Ev) (h1 : serveAfterReadyB false pre = true)
    (h2 : (pre.any fun e => e == Ev.readyFired) = true) :
    serveAfterReadyB false (runAfterReady cfg env pc pre).2 = true := by
  obtain ⟨suf, heq, _⟩ := runAfterReady_trace cfg env pc pre
  rw [heq]
  exact serveAfterReadyB_of_pre pre suf h1 h2

/-- The exec loop from index k, on a non-candidate node with all parses and
spawns succeeding, starts exactly the commands not marked candidate-only, in
order. -/
theorem execCmdsFrom_allOk (env : RunEnv) :
    ∀ (cmds : List ExecConfig) (k : Nat),
      (∀ i, k ≤ i → i < k + cmds.length →
        (∃ v, env.execParse i = .ok v) ∧ env.execRunOk i = true) →
      (execCmdsFrom false env k cmds).1 = .ok ()
      ∧ (execCmdsFrom false env k cmds).2 =
          ((List.enumFrom k cmds).filter fun p => !p.2.ifCandidate).map
            fun p => Ev.execCmd p.1 := by
  intro cmds
  induction cmds with
  | nil => intro k hok; exact ⟨rfl, rfl⟩
  | cons c rest ih =>
    intro k hok
    obtain ⟨⟨v, hv⟩, hrun⟩ := hok k (Nat.le_refl k) (by simp only [List.length_cons]; omega)
    have hrest := ih (k + 1)
      (fun i h1 h2 => hok i (by omega) (by simp only [List.length_cons]; omega))
    rw [execCmdsFrom, hv]
    by_cases hic : c.ifCandidate = true
    · rw [if_pos ⟨hic, rfl⟩]
      refine ⟨hrest.1, ?_⟩
      rw [hrest.2]
      simp [List.enumFrom, hic]
    · have hic' : c.ifCandidate = false := by
        cases hcv : c.ifCandidate
        · rfl
        · exact absurd hcv hic
      rw [if_neg (by intro hcon; exact hic hcon.1), if_pos hrun]
      refine ⟨?_, ?_⟩
      · simp [hrest.1]
      · simp [hrest.2, List.enumFrom, hic']

/-- C2: for every state in which the local store already reports itself
primary, promote returns success (nil) immediately as a no-op, without
sending a handoff request to any peer. -/
theorem promote_already_primary (env : PromoteEnv) (h : env.isPrimary0 = true) :
    promote env = (PromoteResult.ok, false) := by
  simp [promote, h]

/-- Witness for C2: a concrete already-primary promote call. -/
theorem promote_already_primary_witness :
    promoteEnvPrimary.isPrimary0 = true
    ∧ promote promoteEnvPrimary = (PromoteResult.ok, false) :=
  ⟨rfl, promote_already_primary promoteEnvPrimary rfl⟩

/-- C3: after a successful handoff request, promote polls IsPrimary at a
fixed 1 ms interval and returns success exactly when some poll within the
10 s overall timeout observes true; otherwise it returns the
promotion-timeout error rather than success. -/
theorem promote_poll_contract (env : PromoteEnv)
    (h1 : env.isPrimary0 = false) (h2 : env.handoffResult = .ok ()) :
    promoteTickerMs = 1 ∧ promoteTimeoutMs = 10000
    ∧ ((promote env).1 = PromoteResult.ok ↔
        ∃ k, 0 < k ∧ k ≤ promoteTimeoutMs / promoteTickerMs ∧ env.isPrimaryAt k = true)
    ∧ (¬(∃ k, 0 < k ∧ k ≤ promoteTimeoutMs / promoteTickerMs ∧ env.isPrimaryAt k = true) →
        (promote env).1 = PromoteResult.promotionTimeout) := by
  have hpoll := promotePoll_iff env.isPrimaryAt (promoteTimeoutMs / promoteTickerMs) 0
  simp only [Nat.zero_add] at hpoll
  have hred : promote env =
      (if promotePoll env.isPrimaryAt (promoteTimeoutMs / promoteTickerMs) 0 then
        (PromoteResult.ok, true)
      else (PromoteResult.promotionTimeout, true)) := by
    simp [promote, h1, h2]
  refine ⟨rfl, rfl, ?_, ?_⟩
  · rw [hred]
    by_cases hp : promotePoll env.isPrimaryAt (promoteTimeoutMs / promoteTickerMs) 0 = true
    · rw [if_pos hp]
      exact iff_of_true rfl (hpoll.mp hp)
    · rw [if_neg hp]
      have hno : ¬∃ k, 0 < k ∧ k ≤ promoteTimeoutMs / promoteTickerMs
          ∧ env.isPrimaryAt k = true := fun he => hp (hpoll.mpr he)
      simp [hno]
  · intro hn
    have hp : promotePoll env.isPrimaryAt (promoteTimeoutMs / promoteTickerMs) 0 = false := by
      cases hv : promotePoll env.isPrimaryAt (promoteTimeoutMs / promoteTickerMs) 0
      · rfl
      · exact absurd (hpoll.mp hv) hn
    rw [hred, if_neg (by simp [hp])]

/-- Witness for C3: a concrete handed-off promote call that becomes primary
at the first poll tick. -/
theorem promote_poll_contract_witness :
    promoteEnvQuick.isPrimary0 = false
    ∧ promoteEnvQuick.handoffResult = .ok ()
    ∧ (promoteTickerMs = 1 ∧ promoteTimeoutMs = 10000
       ∧ ((promote promoteEnvQuick).1 = PromoteResult.ok ↔
           ∃ k, 0 < k ∧ k ≤ promoteTimeoutMs / promoteTickerMs
             ∧ promoteEnvQuick.isPrimaryAt k = true)
       ∧ (¬(∃ k, 0 < k ∧ k ≤ promoteTimeoutMs / promoteTickerMs
             ∧ promoteEnvQuick.isPrimaryAt k = true) →
           (promote promoteEnvQuick).1 = PromoteResult.promotionTimeout)) :=
  ⟨rfl, rfl, promote_poll_contract promoteEnvQuick rfl rfl⟩

/-- C4 counterexample: a promote call whose context is canceled at tick 5,
long before the node becomes primary and before the 10 s timeout, still
returns the promotion-timeout error, not the cancellation cause: the wait
loop of mount_linux.go selects only on its two tickers and never on
ctx.Done(). -/
theorem promote_cancel_counterexample :
    promoteEnvStalled.cancelAt = some 5
    ∧ 5 < promoteTimeoutMs
    ∧ promote promoteEnvStalled = (PromoteResult.promotionTimeout, true)
    ∧ PromoteResult.promotionTimeout ≠ PromoteResult.canceledCause := by
  refine ⟨rfl, by decide, ?_, by simp⟩
  simp [promote, promoteEnvStalled, promotePoll_const_false]

/-- C4 amended: cancellation of the caller's context is not observed by the
promotion wait loop: the result of promote is independent of when (or
whether) the context is canceled, and after a successful handoff promote
returns either success or the promotion-timeout error, never a cancellation
cause.  (A cancellation that makes the handoff request itself fail surfaces
as the wrapped handoff error.) -/
theorem promote_cancellation_irrelevant (env : PromoteEnv) (c : Option Nat)
    (h1 : env.isPrimary0 = false) (h2 : env.handoffResult = .ok ()) :
    promote { env with cancelAt := c } = promote { env with cancelAt := none }
    ∧ ((promote env).1 = PromoteResult.ok
       ∨ (promote env).1 = PromoteResult.promotionTimeout) := by
  constructor
  · rfl
  · simp only [promote, h1, Bool.false_eq_true, if_false, h2]
    by_cases hp : promotePoll env.isPrimaryAt (promoteTimeoutMs / promoteTickerMs) 0 = true
    · rw [if_pos hp]; exact Or.inl rfl
    · rw [if_neg hp]; exact Or.inr rfl

/-- Witness for the amended C4 at a concrete stalled, canceled promote
call. -/
theorem promote_cancellation_irrelevant_witness :
    promoteEnvStalled.isPrimary0 = false
    ∧ promoteEnvStalled.handoffResult = .ok ()
    ∧ (promote { promoteEnvStalled with cancelAt := some 5 }
        = promote { promoteEnvStalled with cancelAt := none }
       ∧ ((promote promoteEnvStalled).1 = PromoteResult.ok
          ∨ (promote promoteEnvStalled).1 = PromoteResult.promotionTimeout)) :=
  ⟨rfl, rfl, promote_cancellation_irrelevant promoteEnvStalled (some 5) rfl rfl⟩

/-- C5: Validate returns an error exactly when the configuration is invalid
in one of the four listed ways; the lease types recognized are exactly
"consul" and "static"; and on a validation error the startup path fails
without running the command. -/
theorem validate_contract (c : Config) :
    (∀ s, IsValidLeaseType s = true ↔ (s = LeaseTypeConsul ∨ s = LeaseTypeStatic))
    ∧ (Validate c = none ↔
        ¬(c.fuse.dir = "" ∨ c.data.dir = "" ∨ c.fuse.dir = c.data.dir
          ∨ IsValidLeaseType c.lease.type = false))
    ∧ (∀ env msg, Validate c = some msg → startup c env = Except.error msg) := by
  refine ⟨?_, ?_, ?_⟩
  · intro s
    simp only [IsValidLeaseType]
    split_ifs with ha hb
    · simp [ha]
    · simp [hb]
    · simp [ha, hb]
  · simp only [Validate]
    split_ifs with h1 h2 h3 h4 <;> simp_all
  · intro env msg h
    simp [startup, h]


theorem initConsul_eq (cfg : Config) (osh : Except String String)
    (fn : Option String) (port : Nat) (ok : Bool) :
    initConsul cfg osh fn port ok =
      match (if cfg.lease.hostname = "" then osh else Except.ok cfg.lease.hostname) with
      | .error e => .error e
      | .ok hn =>
        if ok then
          .ok { url := cfg.lease.consul.url, key := cfg.lease.consul.key,
                hostname := hn,
                advertiseURL :=
                  (if (match fn with | some f => f | none => cfg.lease.advertiseURL) = ""
                      ∧ hn ≠ "" then
                    "http://" ++ hn ++ ":" ++ toString port
                  else (match fn with | some f => f | none => cfg.lease.advertiseURL)),
                ttl := (if cfg.lease.consul.ttl > 0 then cfg.lease.consul.ttl
                  else consulDefaultTTL),
                lockDelay := (if cfg.lease.consul.lockDelay > 0 then cfg.lease.consul.lockDelay
                  else consulDefaultLockDelay) }
        else .error "cannot connect to consul" := by
  simp only [initConsul]
  cases (if cfg.lease.hostname = "" then osh else Except.ok cfg.lease.hostname) with
  | error e => rfl
  | ok hn =>
    cases ok with
    | false => rfl
    | true => split_ifs <;> rfl


theorem initConsul_ok_fields (cfg : Config) (osh : Except String String)
    (fn : Option String) (port : Nat) (ok : Bool) (l : ConsulLeaser)
    (h : initConsul cfg osh fn port ok = .ok l) :
    ∃ hn,
      (if cfg.lease.hostname = "" then osh else Except.ok cfg.lease.hostname) = .ok hn
      ∧ l.hostname = hn
      ∧ l.advertiseURL =
          (if (match fn with | some f => f | none => cfg.lease.advertiseURL) = "" ∧ hn ≠ ""
           then "http://" ++ hn ++ ":" ++ toString port
           else (match fn with | some f => f | none => cfg.lease.advertiseURL))
      ∧ l.ttl = (if cfg.lease.consul.ttl > 0 then cfg.lease.consul.ttl else consulDefaultTTL)
      ∧ l.lockDelay = (if cfg.lease.consul.lockDelay > 0 then cfg.lease.consul.lockDelay
          else consulDefaultLockDelay) := by
  cases fn
  all_goals
    rw [initConsul_eq] at h
    cases hE : (if cfg.lease.hostname = "" then osh else Except.ok cfg.lease.hostname) with
    | error e => rw [hE] at h; exact Except.noConfusion h
    | ok hn =>
      rw [hE] at h
      cases ok with
      | false => exact Except.noConfusion h
      | true =>
        simp only [if_pos, Except.ok.injEq] at h
        obtain rfl := h.symm
        exact ⟨hn, rfl, rfl, rfl, rfl, rfl⟩

/-- C6: with the consul backend, no test injection and an empty configured
advertise URL, initConsul derives the advertise URL from the resolved
hostname and the HTTP port whenever that hostname is non-empty, so the leaser
always gets a non-empty advertise URL in that case; a non-empty configured
advertise URL is passed through unchanged. -/
theorem initConsul_advertise (cfg : Config) (osh : Except String String)
    (port : Nat) (ok : Bool) (l : ConsulLeaser)
    (h : initConsul cfg osh none port ok = .ok l) :
    (cfg.lease.advertiseURL = "" → l.hostname ≠ "" →
      l.advertiseURL = "http://" ++ l.hostname ++ ":" ++ toString port
      ∧ l.advertiseURL ≠ "")
    ∧ (cfg.lease.advertiseURL ≠ "" → l.advertiseURL = cfg.lease.advertiseURL) := by
  obtain ⟨hn, hE, hhost, hadv, _, _⟩ := initConsul_ok_fields cfg osh none port ok l h
  simp only at hadv
  constructor
  · intro ha hhn
    rw [hhost] at hhn
    rw [if_pos ⟨ha, hhn⟩] at hadv
    refine ⟨by rw [hadv, hhost], ?_⟩
    rw [hadv]
    exact string_append_ne_empty _ _
      (string_append_ne_empty _ _ (string_append_ne_empty _ _ (by decide)))
  · intro ha
    rw [if_neg (fun hcon => ha hcon.1)] at hadv
    exact hadv

/-- Witness for C6: a concrete consul configuration with empty hostname and
advertise URL; the OS hostname and HTTP port produce the advertise URL. -/
theorem initConsul_advertise_witness :
    initConsul runCfgConsul (.ok "node-a") none 20202 true = .ok leaserW
    ∧ ((runCfgConsul.lease.advertiseURL = "" → leaserW.hostname ≠ "" →
        leaserW.advertiseURL = "http://" ++ leaserW.hostname ++ ":" ++ toString 20202
        ∧ leaserW.advertiseURL ≠ "")
       ∧ (runCfgConsul.lease.advertiseURL ≠ "" →
          leaserW.advertiseURL = runCfgConsul.lease.advertiseURL)) :=
  ⟨rfl, initConsul_advertise runCfgConsul (.ok "node-a") 20202 true leaserW rfl⟩

/-- C8: for the consul backend, the configured TTL and LockDelay override the
leaser's defaults exactly when strictly positive; a zero or negative value
leaves the backend default in place. -/
theorem initConsul_overrides (cfg : Config) (osh : Except String String)
    (fn : Option String) (port : Nat) (ok : Bool) (l : ConsulLeaser)
    (h : initConsul cfg osh fn port ok = .ok l) :
    (0 < cfg.lease.consul.ttl → l.ttl = cfg.lease.consul.ttl)
    ∧ (cfg.lease.consul.ttl ≤ 0 → l.ttl = consulDefaultTTL)
    ∧ (0 < cfg.lease.consul.lockDelay → l.lockDelay = cfg.lease.consul.lockDelay)
    ∧ (cfg.lease.consul.lockDelay ≤ 0 → l.lockDelay = consulDefaultLockDelay) := by
  obtain ⟨hn, _, _, _, httl, hlock⟩ := initConsul_ok_fields cfg osh fn port ok l h
  refine ⟨?_, ?_, ?_, ?_⟩ <;> intro hc
  · rw [httl, if_pos hc]
  · rw [httl, if_neg (by omega)]
  · rw [hlock, if_pos hc]
  · rw [hlock, if_neg (by omega)]

/-- Witness for C8: `runCfgConsul` has a zero TTL (default kept) and a
positive LockDelay (override applied). -/
theorem initConsul_overrides_witness :
    initConsul runCfgConsul (.ok "node-a") none 20202 true = .ok leaserW
    ∧ ((0 < runCfgConsul.lease.consul.ttl → leaserW.ttl = runCfgConsul.lease.consul.ttl)
       ∧ (runCfgConsul.lease.consul.ttl ≤ 0 → leaserW.ttl = consulDefaultTTL)
       ∧ (0 < runCfgConsul.lease.consul.lockDelay →
          leaserW.lockDelay = runCfgConsul.lease.consul.lockDelay)
       ∧ (runCfgConsul.lease.consul.lockDelay ≤ 0 →
          leaserW.lockDelay = consulDefaultLockDelay)) :=
  ⟨rfl,
    initConsul_overrides runCfgConsul (.ok "node-a") none 20202 true leaserW rfl⟩

/-- C9 counterexample: when the first openStore call fails at Store.Open, the
expvar publish does not execute on the first call; it executes on the second
(first successful) call, contradicting "the publish action executes on the
first call only and every later call skips it". -/
theorem openStore_publish_counterexample :
    openStoreRuns false [false, true] = [false, true]
    ∧ (openStoreRuns false [false, true])[0]? = some false
    ∧ (openStoreRuns false [false, true])[1]? = some true :=
  ⟨rfl, rfl, rfl⟩

/-- C9 amended: the expvar store metric is published at most once per
process: across any sequence of openStore calls, the publish action executes
exactly on the first call whose Store.Open succeeds (if any) and every other
call skips it. -/
theorem openStore_publish_once (oks : List Bool) :
    openStoreRuns false oks = publishMarks oks
    ∧ (openStoreRuns false oks).count true ≤ 1 := by
  have hdone : ∀ l : List Bool, openStoreRuns true l = l.map fun _ => false := by
    intro l
    induction l with
    | nil => rfl
    | cons ok rest ih => cases ok <;> simp [openStoreRuns, openStoreOnce, ih]
  have hmain : ∀ l : List Bool, openStoreRuns false l = publishMarks l := by
    intro l
    induction l with
    | nil => rfl
    | cons ok rest ih =>
      cases ok <;> simp [openStoreRuns, openStoreOnce, publishMarks, ih, hdone]
  refine ⟨hmain oks, ?_⟩
  rw [hmain oks]
  induction oks with
  | nil => simp [publishMarks]
  | cons ok rest ih =>
    cases ok
    · simpa [publishMarks, List.count_cons] using ih
    · have hzero : ((List.replicate rest.length false).count true) = 0 := by
        rw [List.count_eq_zero]
        intro hmem
        have := List.eq_of_mem_replicate hmem
        cases this
      simp [publishMarks, List.count_cons, hzero]

/-- C1: with SkipSync false, no proxy-serving or subprocess-start event ever
precedes the readiness barrier firing; and when the context is canceled at
the readiness wait, Run returns the cancellation cause having emitted neither
kind of event. -/
theorem run_ready_barrier (cfg : Config) (env : RunEnv) (h : cfg.skipSync = false) :
    serveAfterReadyB false (Run cfg env).2 = true
    ∧ (env.readyCtxCanceled = true →
        ∀ pc, runInit cfg env = .ok pc →
          (Run cfg env).1 = .error RunError.canceledCause
          ∧ (Run cfg env).2 = [Ev.httpServe, Ev.readyWait]) := by
  cases hinit : runInit cfg env with
  | error e =>
    refine ⟨by simp [Run, hinit, serveAfterReadyB], ?_⟩
    intro _ pc hpc
    exact Except.noConfusion hpc
  | ok pc =>
    have hrun : Run cfg env = runServe cfg env pc := by simp [Run, hinit]
    rw [hrun]
    cases hc : env.readyCtxCanceled with
    | true =>
      have hred : runServe cfg env pc
          = (.error RunError.canceledCause, [Ev.httpServe, Ev.readyWait]) := by
        simp [runServe, h, hc]
      rw [hred]
      exact ⟨by decide, fun _ pc' hpc' => ⟨rfl, rfl⟩⟩
    | false =>
      refine ⟨?_, fun hcc => absurd hcc (by simp [hc])⟩
      simp only [runServe, h, hc, Bool.false_eq_true, if_false]
      cases hp : cfg.lease.promote with
      | false =>
        simp only [Bool.false_eq_true, if_false]
        exact serveAfterReadyB_runAfterReady cfg env pc _ (by decide) (by decide)
      | true =>
        simp only [if_true]
        cases hcand : cfg.lease.candidate with
        | false =>
          simp only [Bool.false_eq_true, if_false]
          exact serveAfterReadyB_runAfterReady cfg env pc _ (by decide) (by decide)
        | true =>
          simp only [if_true]
          cases hpr : (promote env.promoteEnv).1 with
          | ok =>
            exact serveAfterReadyB_runAfterReady cfg env pc _ (by decide) (by decide)
          | handoffFailed m => rfl
          | promotionTimeout => rfl
          | canceledCause => rfl

/-- Witness for C1: the representative config with sync enabled, in an
all-successful environment. -/
theorem run_ready_barrier_witness :
    runCfgBase.skipSync = false
    ∧ (serveAfterReadyB false (Run runCfgBase runEnvBase).2 = true
       ∧ (runEnvBase.readyCtxCanceled = true →
           ∀ pc, runInit runCfgBase runEnvBase = .ok pc →
             (Run runCfgBase runEnvBase).1 = .error RunError.canceledCause
             ∧ (Run runCfgBase runEnvBase).2 = [Ev.httpServe, Ev.readyWait])) :=
  ⟨rfl, run_ready_barrier runCfgBase runEnvBase rfl⟩

/-- C10: with SkipSync true, Run neither waits on the readiness channel nor
calls promote — even if auto-promote is requested and the node is a
candidate — and after the HTTP-serve step every emitted event is a
proxy-serve or subprocess start. -/
theorem run_skip_sync (cfg : Config) (env : RunEnv) (h : cfg.skipSync = true) :
    Ev.readyWait ∉ (Run cfg env).2
    ∧ Ev.readyFired ∉ (Run cfg env).2
    ∧ Ev.promoteCall ∉ (Run cfg env).2
    ∧ ((Run cfg env).2 = []
       ∨ ∃ rest, (Run cfg env).2 = Ev.httpServe :: rest
           ∧ ∀ e ∈ rest, servingEv e = true) := by
  cases hinit : runInit cfg env with
  | error e => simp [Run, hinit]
  | ok pc =>
    have hrun : Run cfg env = runAfterReady cfg env pc [Ev.httpServe] := by
      simp [Run, hinit, runServe, h]
    rw [hrun]
    obtain ⟨suf, heq, hall⟩ := runAfterReady_trace cfg env pc [Ev.httpServe]
    refine ⟨runAfterReady_not_mem cfg env pc [Ev.httpServe] Ev.readyWait (by decide) (by decide),
      runAfterReady_not_mem cfg env pc [Ev.httpServe] Ev.readyFired (by decide) (by decide),
      runAfterReady_not_mem cfg env pc [Ev.httpServe] Ev.promoteCall (by decide) (by decide),
      Or.inr ⟨suf, by rw [heq]; rfl, hall⟩⟩

/-- Witness for C10: the skip-sync config with auto-promote set and a
candidate node, in an all-successful environment. -/
theorem run_skip_sync_witness :
    runCfgSkip.skipSync = true
    ∧ runCfgSkip.lease.promote = true
    ∧ runCfgSkip.lease.candidate = true
    ∧ (Ev.readyWait ∉ (Run runCfgSkip runEnvBase).2
       ∧ Ev.readyFired ∉ (Run runCfgSkip runEnvBase).2
       ∧ Ev.promoteCall ∉ (Run runCfgSkip runEnvBase).2
       ∧ ((Run runCfgSkip runEnvBase).2 = []
          ∨ ∃ rest, (Run runCfgSkip runEnvBase).2 = Ev.httpServe :: rest
              ∧ ∀ e ∈ rest, servingEv e = true)) :=
  ⟨rfl, rfl, rfl, run_skip_sync runCfgSkip runEnvBase rfl⟩

/-- C7 counterexample: a non-candidate node with a candidate-only first
command whose string fails shellwords parsing: the command is skipped in the
sense of never starting, but execution does not continue with the remaining
commands — execCmds parses each command string before the candidate check and
aborts, so the second command never starts either. -/
theorem run_non_candidate_counterexample :
    execCfgsParseFail[0]?.map ExecConfig.ifCandidate = some true
    ∧ (execCmds false execCfgsParseFail runEnvParseFail).2 = []
    ∧ (execCmds false execCfgsParseFail runEnvParseFail).1 =
        .error "cannot parse exec command" :=
  ⟨rfl, rfl, rfl⟩

/-- C7 amended: a non-candidate node never calls promote, never starts an
exec command marked candidate-only, and — provided every command string
parses and every spawn succeeds — starts exactly the commands not marked
candidate-only, in order. -/
theorem run_non_candidate (cfg : Config) (env : RunEnv) (h : cfg.lease.candidate = false) :
    Ev.promoteCall ∉ (Run cfg env).2
    ∧ (∀ i c, cfg.exec[i]? = some c → c.ifCandidate = true →
        Ev.execCmd i ∉ (execCmds cfg.lease.candidate cfg.exec env).2)
    ∧ ((∀ i, i < cfg.exec.length →
          (∃ v, env.execParse i = .ok v) ∧ env.execRunOk i = true) →
        (execCmds cfg.lease.candidate cfg.exec env).1 = .ok ()
        ∧ (execCmds cfg.lease.candidate cfg.exec env).2 =
            ((List.enumFrom 0 cfg.exec).filter fun p => !p.2.ifCandidate).map
              fun p => Ev.execCmd p.1) := by
  refine ⟨?_, ?_, ?_⟩
  · cases hinit : runInit cfg env with
    | error e => simp [Run, hinit]
    | ok pc =>
      have hrun : Run cfg env = runServe cfg env pc := by simp [Run, hinit]
      rw [hrun]
      cases hs : cfg.skipSync with
      | true =>
        have hred : runServe cfg env pc = runAfterReady cfg env pc [Ev.httpServe] := by
          simp [runServe, hs]
        rw [hred]
        exact runAfterReady_not_mem cfg env pc [Ev.httpServe] Ev.promoteCall
          (by decide) (by decide)
      | false =>
        cases hc : env.readyCtxCanceled with
        | true =>
          have hred : runServe cfg env pc
              = (.error RunError.canceledCause, [Ev.httpServe, Ev.readyWait]) := by
            simp [runServe, hs, hc]
          rw [hred]
          decide
        | false =>
          cases hp : cfg.lease.promote with
          | true =>
            have hred : runServe cfg env pc
                = runAfterReady cfg env pc [Ev.httpServe, Ev.readyWait, Ev.readyFired] := by
              simp [runServe, hs, hc, hp, h]
            rw [hred]
            exact runAfterReady_not_mem cfg env pc _ Ev.promoteCall (by decide) (by decide)
          | false =>
            have hred : runServe cfg env pc
                = runAfterReady cfg env pc [Ev.httpServe, Ev.readyWait, Ev.readyFired] := by
              simp [runServe, hs, hc, hp]
            rw [hred]
            exact runAfterReady_not_mem cfg env pc _ Ev.promoteCall (by decide) (by decide)
  · intro i c hget hic hmem
    obtain ⟨j, c', he, hj, himp⟩ := execCmdsFrom_mem cfg.lease.candidate env cfg.exec 0 _ hmem
    have hij : i = j := by
      injection he with h'
      omega
    subst hij
    have hc' : c' = c := by
      rw [hget] at hj
      exact (Option.some.inj hj).symm
    have : cfg.lease.candidate = true := himp (by rw [hc', hic])
    rw [h] at this
    exact Bool.noConfusion this
  · intro hok
    have hall := execCmdsFrom_allOk env cfg.exec 0 (fun i h1 h2 => hok i (by omega))
    simp only [execCmds, h]
    exact hall

/-- Witness for the amended C7: the non-candidate config with a
candidate-only migration command, in an all-successful environment. -/
theorem run_non_candidate_witness :
    runCfgNonCandidate.lease.candidate = false
    ∧ (Ev.promoteCall ∉ (Run runCfgNonCandidate runEnvBase).2
       ∧ (∀ i c, runCfgNonCandidate.exec[i]? = some c → c.ifCandidate = true →
           Ev.execCmd i ∉
             (execCmds runCfgNonCandidate.lease.candidate runCfgNonCandidate.exec runEnvBase).2)
       ∧ ((∀ i, i < runCfgNonCandidate.exec.length →
             (∃ v, runEnvBase.execParse i = .ok v) ∧ runEnvBase.execRunOk i = true) →
           (execCmds runCfgNonCandidate.lease.candidate runCfgNonCandidate.exec runEnvBase).1
             = .ok ()
           ∧ (execCmds runCfgNonCandidate.lease.candidate runCfgNonCandidate.exec
               runEnvBase).2 =
               ((List.enumFrom 0 runCfgNonCandidate.exec).filter
                 fun p => !p.2.ifCandidate).map fun p => Ev.execCmd p.1)) :=
  ⟨rfl, run_non_candidate runCfgNonCandidate runEnvBase rfl⟩
